import Mathlib

/-!
Verification of the phrase-detection and highlight-merging core of the
yt-script-analyzer repository (`src/components/TensionHighlighter.tsx` and the
NLP detector module `detectAbsolutismsNLP` / `detectInversionsNLP`).

Texts are modelled as `List Char`; offsets are character indices (the source
uses JavaScript UTF-16 code-unit indices, which coincide for the inputs
considered here).  The external regular-expression engine and the wink-nlp
tokenizing capability are not part of the repository sources, so they are
modelled abstractly: a pattern is a function from a text to the list of
(matchedText, matchIndex) pairs its global `exec` loop would produce, and the
tokenizer is a function from a text to a document of tokens and sentences
(which may fail, modelling a thrown exception).
-/

/-- A single global-regex matcher: models `while ((m = pattern.exec(text)))`,
returning the list of `(m[0], m.index)` pairs, in order. -/
def Matcher : Type := List Char → List (List Char × Nat)

/-- The pattern tables of the program.  `tensionPatterns` models the
`TENSION_PATTERNS` table (its defining module is not among the sources, so it
is kept abstract, as the spec describes it: a static ordered list of rules);
`absolutePatterns` and `inversionPatterns` model the exec behaviour of the six
sentence-scoped regex literals of each NLP detector. -/
structure RegexEngine where
  tensionPatterns : List Matcher
  absolutePatterns : List Matcher
  inversionPatterns : List Matcher

/-- A wink-nlp token, as consumed by the detectors: `token.out()`,
`token.out(its.lemma)`, `token.out(its.pos)`, `token.out(its.offset)`. -/
structure Token where
  surface : List Char
  lemmaForm : List Char
  pos : List Char
  offset : Nat
deriving DecidableEq

/-- A wink-nlp sentence: `sentence.out()` and `sentence.out(its.offset)`. -/
structure Sentence where
  text : List Char
  offset : Nat
deriving DecidableEq

/-- The result of `nlp.readDoc(text)`: its token and sentence collections. -/
structure NLPDoc where
  tokens : List Token
  sentences : List Sentence

/-- The tokenizing capability.  `readDoc` may fail (`Except.error`), modelling
an exception thrown inside the detector's `try` block. -/
structure NLP where
  readDoc : List Char → Except String NLPDoc

/-- The state returned by the `useNLP` hook: the engine instance (if any) and
the `isLoaded` flag. -/
structure NLPState where
  nlp : Option NLP
  isLoaded : Bool

/-- A detector output span, as pushed by `detectAbsolutismsNLP` /
`detectInversionsNLP`: `{text, start, type}` (no `end`; the caller computes
`end = start + text.length`). -/
structure RawSpan where
  text : List Char
  start : Nat
  type : String
deriving DecidableEq

/-- A highlight in `analyzeText`: `{text, start, end, type, class}`.  `end` and
`class` are Lean keywords, so the fields are named `stop` and `cls`. -/
structure Highlight where
  text : List Char
  start : Nat
  stop : Nat
  type : String
  cls : List Char
deriving DecidableEq

/-- Lowercasing, modelling JavaScript `toLowerCase()` on the texts involved. -/
def lowerStr (s : List Char) : List Char := s.map Char.toLower

/-- One pass of `String.replace(/c/g, rep)` for a single-character pattern. -/
def replaceChar (c : Char) (rep : List Char) : List Char → List Char
  | [] => []
  | x :: xs => (if x = c then rep else [x]) ++ replaceChar c rep xs

/-- `escapeHtml` from `TensionHighlighter.tsx`: replace `&` with `&amp;`, then
`<` with `&lt;`, then `>` with `&gt;`. -/
def escapeHtml (t : List Char) : List Char :=
  replaceChar '>' ("&gt;".toList)
    (replaceChar '<' ("&lt;".toList)
      (replaceChar '&' ("&amp;".toList) t))

/-- Character-wise description of `escapeHtml`. -/
def escChar (c : Char) : List Char :=
  if c = '&' then "&amp;".toList
  else if c = '<' then "&lt;".toList
  else if c = '>' then "&gt;".toList
  else [c]

/-- The overlap test of the filter loop in `analyzeText`:
`(h.start >= e.start && h.start < e.end) || (h.end > e.start && h.end <= e.end)`. -/
def overlaps (existing h : Highlight) : Bool :=
  (decide (existing.start ≤ h.start) && decide (h.start < existing.stop)) ||
    (decide (existing.start < h.stop) && decide (h.stop ≤ existing.stop))

/-- One iteration of the overlap-removal loop: keep `h` unless it overlaps an
already-kept highlight. -/
def filterStep (acc : List Highlight) (h : Highlight) : List Highlight :=
  if acc.any (fun existing => overlaps existing h) then acc else acc ++ [h]

/-- The overlap-removal loop of `analyzeText` (lines 106–115). -/
def filterOverlaps (l : List Highlight) : List Highlight :=
  l.foldl filterStep []

/-- The spec's wording of the overlap condition:
`kept.start <= candidate.start < kept.end OR kept.start < candidate.end <= kept.end`. -/
def overlapPred (kept candidate : Highlight) : Prop :=
  (kept.start ≤ candidate.start ∧ candidate.start < kept.stop) ∨
    (kept.start < candidate.stop ∧ candidate.stop ≤ kept.stop)

instance (kept candidate : Highlight) : Decidable (overlapPred kept candidate) := by
  unfold overlapPred; infer_instance

/-- Greedy filter as worded by the spec: a span is kept exactly when no
already-kept span satisfies `overlapPred`. -/
def filterStepSpec (acc : List Highlight) (h : Highlight) : List Highlight :=
  if ∃ kept ∈ acc, overlapPred kept h then acc else acc ++ [h]

/-- Spec-worded greedy overlap filter. -/
def filterOverlapsSpec (l : List Highlight) : List Highlight :=
  l.foldl filterStepSpec []

/-- Ascending comparison used for `highlights.sort((a, b) => a.start - b.start)`. -/
def startLE (a b : Highlight) : Prop := a.start ≤ b.start

instance : DecidableRel startLE := fun a b => Nat.decLe a.start b.start

instance : IsTotal Highlight startLE := ⟨fun a b => Nat.le_total a.start b.start⟩

instance : IsTrans Highlight startLE := ⟨fun _ _ _ => Nat.le_trans⟩

/-- Descending comparison used for
`filteredHighlights.sort((a, b) => b.start - a.start)`. -/
def startGE (a b : Highlight) : Prop := b.start ≤ a.start

instance : DecidableRel startGE := fun a b => Nat.decLe b.start a.start

instance : IsTotal Highlight startGE := ⟨fun a b => Nat.le_total b.start a.start⟩

instance : IsTrans Highlight startGE := ⟨fun _ _ _ h1 h2 => Nat.le_trans h2 h1⟩

/-- Strict descending order, used to identify the descending sort with
`List.reverse` when all starts are distinct. -/
def startGT (a b : Highlight) : Prop := b.start < a.start

instance : IsAntisymm Highlight startGT :=
  ⟨fun _ _ h1 h2 => absurd h1 (Nat.lt_asymm h2)⟩

/-- The ascending stable sort of line 103 (JavaScript `Array.prototype.sort`
is stable; insertion sort with a non-strict comparison is the same stable
sort). -/
def sortAsc (l : List Highlight) : List Highlight := List.insertionSort startLE l

/-- The descending stable sort of line 118. -/
def sortDesc (l : List Highlight) : List Highlight := List.insertionSort startGE l

/-- Sort ascending then remove overlaps: lines 103–115 of `analyzeText`. -/
def resolveSpans (l : List Highlight) : List Highlight :=
  filterOverlaps (sortAsc l)

/-- Opening wrapper `<span class="...">` of the splice step. -/
def spanOpen (cls : List Char) : List Char :=
  "<span class=\"".toList ++ cls ++ "\">".toList

/-- Closing wrapper `</span>`. -/
def spanClose : List Char := "</span>".toList

/-- The full wrapper spliced in for one highlight:
`` `<span class="${highlight.class}">${highlight.text}</span>` ``. -/
def wrapHighlight (h : Highlight) : List Char :=
  spanOpen h.cls ++ h.text ++ spanClose

/-- One splice of the application loop (lines 121–126):
`before + highlighted + after` with `before = processed.substring(0, start)`
and `after = processed.substring(end)`. -/
def spliceOne (processed : List Char) (h : Highlight) : List Char :=
  processed.take h.start ++ wrapHighlight h ++ processed.drop h.stop

/-- The whole splice stage of `analyzeText`: escape the input once, sort the
kept highlights descending, and splice each into the working text. -/
def spliceAll (text : List Char) (spans : List Highlight) : List Char :=
  (sortDesc (resolveSpans spans)).foldl spliceOne (escapeHtml text)

/-- `startsWith`-style check: `pat` matches at the head of `l`. -/
def headMatch : List Char → List Char → Bool
  | [], _ => true
  | _ :: _, [] => false
  | a :: as, b :: bs => decide (a = b) && headMatch as bs

/-- `pat` occurs contiguously somewhere in `l` (JavaScript `includes`). -/
def containsSub (pat : List Char) : List Char → Bool
  | [] => headMatch pat []
  | b :: bs => headMatch pat (b :: bs) || containsSub pat bs

/-- The `absoluteWords` table of `detectAbsolutismsNLP`. -/
def absoluteWords : List (List Char) :=
  ["never", "always", "forever", "eternal", "infinite", "absolute",
   "complete", "total", "entire", "whole", "all", "every", "none",
   "nothing", "everything", "everyone", "nobody", "anywhere",
   "everywhere", "nowhere", "perfect", "impossible", "ultimate"].map String.toList

/-- The `intensifiers` table of `detectAbsolutismsNLP`. -/
def intensifiers : List (List Char) :=
  ["extremely", "incredibly", "unbelievably", "remarkably",
   "exceptionally", "extraordinarily", "tremendously", "vastly"].map String.toList

/-- An apostrophe, written by code point to build the contraction table. -/
def apos : Char := Char.ofNat 39

/-- The `negativeContractions` table of `detectInversionsNLP`; every entry is
a stem followed by an apostrophe and `t`. -/
def negativeContractions : List (List Char) :=
  (["don", "doesn", "didn", "won", "wouldn", "shouldn",
    "couldn", "can", "isn", "aren", "wasn", "weren",
    "haven", "hasn", "hadn", "mustn", "needn", "shan"].map String.toList).map
    (fun stem => stem ++ [apos, 't'])

/-- The negative-prefix table of `detectInversionsNLP`. -/
def negPrefixes : List (List Char) :=
  ["un", "dis", "in", "im", "non", "anti"].map String.toList

/-- The spans pushed for one token by the token loop of
`detectAbsolutismsNLP`: superlative (`JJS`/`RBS` POS), absolute word
(lemma or lowercase surface in `absoluteWords`), intensifier (lemma in
`intensifiers`), in the push order of the source. -/
def absTokenSpans (tok : Token) : List RawSpan :=
  let word := lowerStr tok.surface
  let lem := lowerStr tok.lemmaForm
  (if tok.pos = "JJS".toList ∨ tok.pos = "RBS".toList then
      [⟨tok.surface, tok.offset, "superlative"⟩] else [])
    ++ (if absoluteWords.contains lem ∨ absoluteWords.contains word then
      [⟨tok.surface, tok.offset, "absolute_word"⟩] else [])
    ++ (if intensifiers.contains lem then
      [⟨tok.surface, tok.offset, "intensifier"⟩] else [])

/-- The sentence-pattern spans of `detectAbsolutismsNLP`: each pattern is run
over the sentence text and offsets are translated by the sentence offset. -/
def absPhraseSpans (eng : RegexEngine) (doc : NLPDoc) : List RawSpan :=
  doc.sentences.flatMap fun s =>
    eng.absolutePatterns.flatMap fun p =>
      (p s.text).map fun m => ⟨m.1, s.offset + m.2, "phrase"⟩

/-- `detectAbsolutismsNLP(nlp, text)`: `if (!nlp) return []`, then the token
loop followed by the sentence loop, with the whole body in a `try` that
returns `[]` on failure. -/
def detectAbsolutismsNLP (eng : RegexEngine) (nlp : Option NLP)
    (text : List Char) : List RawSpan :=
  match nlp with
  | none => []
  | some n =>
      match n.readDoc text with
      | Except.error _ => []
      | Except.ok doc => doc.tokens.flatMap absTokenSpans ++ absPhraseSpans eng doc

/-- The spans pushed for one token by the token loop of
`detectInversionsNLP`: contraction, explicit negation, negative prefix, in
the push order of the source. -/
def invTokenSpans (tok : Token) : List RawSpan :=
  let word := lowerStr tok.surface
  let lem := lowerStr tok.lemmaForm
  (if negativeContractions.contains word then
      [⟨tok.surface, tok.offset, "contraction"⟩] else [])
    ++ (if lem = "not".toList ∨ word = "no".toList ∨ lem = "never".toList then
      [⟨tok.surface, tok.offset, "negation"⟩] else [])
    ++ (if (headMatch "JJ".toList tok.pos ∨ headMatch "VB".toList tok.pos)
          ∧ negPrefixes.any (fun p => headMatch p word) then
      [⟨tok.surface, tok.offset, "negative_prefix"⟩] else [])

/-- The sentence-pattern spans of `detectInversionsNLP`. -/
def invPhraseSpans (eng : RegexEngine) (doc : NLPDoc) : List RawSpan :=
  doc.sentences.flatMap fun s =>
    eng.inversionPatterns.flatMap fun p =>
      (p s.text).map fun m => ⟨m.1, s.offset + m.2, "phrase"⟩

/-- `detectInversionsNLP(nlp, text)`, same shape as `detectAbsolutismsNLP`. -/
def detectInversionsNLP (eng : RegexEngine) (nlp : Option NLP)
    (text : List Char) : List RawSpan :=
  match nlp with
  | none => []
  | some n =>
      match n.readDoc text with
      | Except.error _ => []
      | Except.ok doc => doc.tokens.flatMap invTokenSpans ++ invPhraseSpans eng doc

/-- `findTensionPhrases`: run every pattern of the table globally over the raw
text and record each match as a tension span with
`end = index + match.length`; the `class` is attached when `analyzeText`
pushes the highlight. -/
def findTensionPhrases (patterns : List Matcher) (text : List Char) : List Highlight :=
  patterns.flatMap fun p =>
    (p text).map fun m =>
      ⟨m.1, m.2, m.2 + m.1.length, "tension", "highlight-tension".toList⟩

/-- Turn a detector span into the highlight pushed by `analyzeText`
(`end = start + text.length`). -/
def toHighlight (ty : String) (cls : List Char) (r : RawSpan) : Highlight :=
  ⟨r.text, r.start, r.start + r.text.length, ty, cls⟩

/-- The guard `isNlpLoaded && nlp` of `analyzeText`. -/
def nlpActive (st : NLPState) : Bool := st.isLoaded && st.nlp.isSome

/-- The tension highlights collected by `analyzeText`. -/
def rawTension (eng : RegexEngine) (text : List Char) : List Highlight :=
  findTensionPhrases eng.tensionPatterns text

/-- The absolutism highlights collected by `analyzeText` (empty unless the
NLP capability is loaded). -/
def rawAbs (eng : RegexEngine) (st : NLPState) (text : List Char) : List Highlight :=
  if nlpActive st then
    (detectAbsolutismsNLP eng st.nlp text).map
      (toHighlight "absolutism" "highlight-absolutism".toList)
  else []

/-- The inversion highlights collected by `analyzeText` (empty unless the
NLP capability is loaded). -/
def rawInv (eng : RegexEngine) (st : NLPState) (text : List Char) : List Highlight :=
  if nlpActive st then
    (detectInversionsNLP eng st.nlp text).map
      (toHighlight "inversion" "highlight-inversion".toList)
  else []

/-- The `highlights` array of `analyzeText` before sorting: tension pushed
first, then absolutisms, then inversions. -/
def allHighlights (eng : RegexEngine) (st : NLPState) (text : List Char) :
    List Highlight :=
  rawTension eng text ++ rawAbs eng st text ++ rawInv eng st text

/-- The `counts` record of an `AnalysisResult`. -/
structure Counts where
  total : Nat
  tension : Nat
  absolutism : Nat
  inversion : Nat
deriving DecidableEq

/-- An `AnalysisResult`: the annotated markup and the four counts. -/
structure AnalysisResult where
  markup : List Char
  counts : Counts
deriving DecidableEq

/-- Placeholder markup for empty / whitespace-only input. -/
def emptyPromptMarkup : List Char :=
  "<p class=\"text-gray-500\">Please enter some text to analyze.</p>".toList

/-- Placeholder markup of the `catch` branch of `analyzeText`. -/
def failMarkup : List Char :=
  "<p class=\"text-red-500\">Analysis failed. Please try again.</p>".toList

/-- The size of the `allMatches` set: the number of distinct lowercase texts
among all pushed highlights. -/
def totalCount (l : List Highlight) : Nat :=
  ((l.map fun h => lowerStr h.text).dedup).length

/-- `analyzeText` without the outer `try`/`catch`: the early whitespace-only
return, otherwise escape, detect, sort, filter overlaps, sort descending,
splice, and replace newlines with `<br>`. -/
def analyzeText (eng : RegexEngine) (st : NLPState) (text : List Char) :
    AnalysisResult :=
  if text.all Char.isWhitespace then
    ⟨emptyPromptMarkup, ⟨0, 0, 0, 0⟩⟩
  else
    let highlights := allHighlights eng st text
    ⟨replaceChar '\n' ("<br>".toList) (spliceAll text highlights),
     ⟨totalCount highlights,
      (rawTension eng text).length,
      (rawAbs eng st text).length,
      (rawInv eng st text).length⟩⟩

/-- `analyzeText` with its `try`/`catch`: if the body fails with some error,
the result is the failure placeholder with all counts zero. -/
def analyzeTextCaught (eng : RegexEngine) (st : NLPState) (text : List Char)
    (failure : Option String) : AnalysisResult :=
  match failure with
  | some _ => ⟨failMarkup, ⟨0, 0, 0, 0⟩⟩
  | none => analyzeText eng st text

/-- Normal form of the splice loop: what processing spans in descending start
order over a base text `B` produces, written as a left-to-right walk of the
spans in ascending order starting from position `pos`. -/
def renderAsc (B : List Char) (pos : Nat) : List Highlight → List Char
  | [] => B.drop pos
  | h :: rest =>
      (B.drop pos).take (h.start - pos) ++ wrapHighlight h ++ renderAsc B h.stop rest

/-- The correct annotated rendering described by the spec: each kept span's
wrapper encloses exactly the span's substring of the original text, and every
gap between kept spans is the escaped original text. -/
def renderSpec (B : List Char) (pos : Nat) : List Highlight → List Char
  | [] => escapeHtml (B.drop pos)
  | h :: rest =>
      escapeHtml ((B.drop pos).take (h.start - pos)) ++
        spanOpen h.cls ++ (B.drop h.start).take (h.stop - h.start) ++ spanClose ++
        renderSpec B h.stop rest

/-- No raw markup-significant character: no `<` or `>` at all, and every `&`
opens one of the three entities produced by `escapeHtml`. -/
def noRawSpecials : List Char → Bool
  | [] => true
  | c :: rest =>
      if c = '<' ∨ c = '>' then false
      else if c = '&' then
        (headMatch ("amp;".toList) rest || headMatch ("lt;".toList) rest ||
          headMatch ("gt;".toList) rest) && noRawSpecials rest
      else noRawSpecials rest

/-- First span of the spec's worked filter example: offsets `{0, 5}`. -/
def exSpanA : Highlight := ⟨"abcde".toList, 0, 5, "tension", "highlight-tension".toList⟩

/-- Second span of the spec's worked filter example: offsets `{2, 8}`. -/
def exSpanB : Highlight := ⟨"cdefgh".toList, 2, 8, "absolutism", "highlight-absolutism".toList⟩

/-- Third span of the spec's worked filter example: offsets `{10, 12}`. -/
def exSpanC : Highlight := ⟨"kl".toList, 10, 12, "inversion", "highlight-inversion".toList⟩

/-- A pattern table with no rules, so that no detector produces any span. -/
def engNone : RegexEngine := ⟨[], [], []⟩

/-- The NLP state before the capability has loaded (or after it failed). -/
def stUnloaded : NLPState := ⟨none, false⟩

/-- Input of the round-trip escaping example. -/
def escExampleText : List Char := "5 > 3 & true".toList

/-- Input of the offset-misalignment counterexample: an ampersand appears
before the detected span. -/
def cexText : List Char := "& never!".toList

/-- The span `"never"` at `[2, 7)` of `cexText`; its own text contains no
`&`, `<` or `>`. -/
def cexSpan : Highlight := ⟨"never".toList, 2, 7, "tension", "highlight-tension".toList⟩

/-- A special-character-free input for the amended splice-correctness claim. -/
def cleanText : List Char := "we never stop".toList

/-- The span `"never"` at `[3, 8)` of `cleanText`. -/
def cleanSpan : Highlight := ⟨"never".toList, 3, 8, "absolutism", "highlight-absolutism".toList⟩

/-- A text whose detected span is a lone ampersand. -/
def ampText : List Char := "a & b".toList

/-- The span `"&"` at `[2, 3)` of `ampText`. -/
def ampSpan : Highlight := ⟨['&'], 2, 3, "tension", "highlight-tension".toList⟩

/-- A token for the word `never` as the wink tokenizer produces it (the lemma
of `never` is `never`). -/
def tokNever : Token := ⟨"never".toList, "never".toList, "RB".toList, 3⟩

/-- A document holding just the `never` token. -/
def docNever : NLPDoc := ⟨[tokNever], []⟩

/-- A loaded tokenizing capability that returns `docNever` for every text. -/
def nlpNever : NLP := ⟨fun _ => Except.ok docNever⟩

/-- The loaded NLP state around `nlpNever`. -/
def stNever : NLPState := ⟨some nlpNever, true⟩

/-- The input text carrying the `never` token at offset 3. -/
def textNever : List Char := "we never".toList

theorem replaceChar_append (c : Char) (rep l₁ l₂ : List Char) :
    replaceChar c rep (l₁ ++ l₂) = replaceChar c rep l₁ ++ replaceChar c rep l₂ := by
  induction l₁ with
  | nil => rfl
  | cons x xs ih => simp [replaceChar, ih]

theorem escapeHtml_append (l₁ l₂ : List Char) :
    escapeHtml (l₁ ++ l₂) = escapeHtml l₁ ++ escapeHtml l₂ := by
  simp [escapeHtml, replaceChar_append]

theorem escapeHtml_singleton (c : Char) : escapeHtml [c] = escChar c := by
  by_cases h1 : c = '&'
  · subst h1; rfl
  by_cases h2 : c = '<'
  · subst h2; rfl
  by_cases h3 : c = '>'
  · subst h3; rfl
  simp [escapeHtml, escChar, replaceChar, h1, h2, h3]

theorem escapeHtml_cons (c : Char) (t : List Char) :
    escapeHtml (c :: t) = escChar c ++ escapeHtml t := by
  have h : c :: t = [c] ++ t := rfl
  rw [h, escapeHtml_append, escapeHtml_singleton]

theorem escChar_eq_self {c : Char} (h1 : c ≠ '&') (h2 : c ≠ '<') (h3 : c ≠ '>') :
    escChar c = [c] := by
  simp [escChar, h1, h2, h3]

theorem escapeHtml_id {t : List Char} (h : ∀ c ∈ t, escChar c = [c]) :
    escapeHtml t = t := by
  induction t with
  | nil => rfl
  | cons c rest ih =>
      rw [escapeHtml_cons, h c (List.mem_cons_self c rest),
        ih (fun x hx => h x (List.mem_cons_of_mem c hx))]
      rfl

theorem one_le_escChar_length (c : Char) : 1 ≤ (escChar c).length := by
  unfold escChar
  split_ifs <;> simp

theorem length_le_escapeHtml (t : List Char) : t.length ≤ (escapeHtml t).length := by
  induction t with
  | nil => simp [escapeHtml, replaceChar]
  | cons c rest ih =>
      rw [escapeHtml_cons]
      simp only [List.length_append, List.length_cons]
      have := one_le_escChar_length c
      omega

theorem stop_le_of_not_overlaps {e h : Highlight} (hle : e.start ≤ h.start)
    (hov : overlaps e h = false) : e.stop ≤ h.start := by
  simp [overlaps] at hov
  omega

theorem mem_foldl_filterStep {a : Highlight} :
    ∀ (l acc : List Highlight), a ∈ l.foldl filterStep acc → a ∈ acc ∨ a ∈ l := by
  intro l
  induction l with
  | nil => intro acc h; exact Or.inl h
  | cons x xs ih =>
      intro acc h
      rcases ih (filterStep acc x) h with hacc | hxs
      · unfold filterStep at hacc
        split at hacc
        · exact Or.inl hacc
        · rcases List.mem_append.mp hacc with h1 | h2
          · exact Or.inl h1
          · exact Or.inr (by simp at h2; simp [h2])
      · exact Or.inr (List.mem_cons_of_mem x hxs)

theorem mem_filterOverlaps {a : Highlight} {l : List Highlight}
    (h : a ∈ filterOverlaps l) : a ∈ l := by
  rcases mem_foldl_filterStep l [] h with h1 | h2
  · cases h1
  · exact h2

theorem foldl_filterStep_pairwise :
    ∀ (l acc : List Highlight),
      l.Pairwise (fun a b => a.start ≤ b.start) →
      acc.Pairwise (fun a b => a.stop ≤ b.start) →
      (∀ e ∈ acc, ∀ h ∈ l, e.start ≤ h.start) →
      (l.foldl filterStep acc).Pairwise (fun a b => a.stop ≤ b.start) := by
  intro l
  induction l with
  | nil => intro acc _ hacc _; exact hacc
  | cons x xs ih =>
      intro acc hsort hacc hfront
      rw [List.foldl_cons]
      rcases List.pairwise_cons.mp hsort with ⟨hx_le, hxs_sort⟩
      by_cases hov : acc.any (fun existing => overlaps existing x) = true
      · have hstep : filterStep acc x = acc := by simp [filterStep, hov]
        rw [hstep]
        exact ih acc hxs_sort hacc
          (fun e he h hh => hfront e he h (List.mem_cons_of_mem x hh))
      · have hstep : filterStep acc x = acc ++ [x] := by simp [filterStep, hov]
        rw [hstep]
        have hnov : ∀ e ∈ acc, overlaps e x = false := by
          intro e he
          cases hb : overlaps e x
          · rfl
          · exact absurd (List.any_eq_true.mpr ⟨e, he, hb⟩) hov
        have hstop : ∀ e ∈ acc, e.stop ≤ x.start := fun e he =>
          stop_le_of_not_overlaps (hfront e he x (List.mem_cons_self x xs)) (hnov e he)
        refine ih (acc ++ [x]) hxs_sort ?_ ?_
        · rw [List.pairwise_append]
          refine ⟨hacc, List.pairwise_singleton _ _, ?_⟩
          intro e he b hb
          rw [List.mem_singleton] at hb
          subst hb
          exact hstop e he
        · intro e he h hh
          rcases List.mem_append.mp he with h1 | h2
          · exact hfront e h1 h (List.mem_cons_of_mem x hh)
          · rw [List.mem_singleton] at h2
            subst h2
            exact hx_le h hh

theorem filterOverlaps_pairwise {l : List Highlight}
    (hsort : l.Pairwise (fun a b => a.start ≤ b.start)) :
    (filterOverlaps l).Pairwise (fun a b => a.stop ≤ b.start) :=
  foldl_filterStep_pairwise l [] hsort (List.Pairwise.nil) (by intro e he; cases he)

theorem overlaps_iff_overlapPred (e h : Highlight) :
    overlaps e h = true ↔ overlapPred e h := by
  simp [overlaps, overlapPred]

theorem filterStep_eq_filterStepSpec (acc : List Highlight) (h : Highlight) :
    filterStep acc h = filterStepSpec acc h := by
  unfold filterStep filterStepSpec
  refine if_congr ?_ rfl rfl
  rw [List.any_eq_true]
  constructor
  · rintro ⟨e, he, hov⟩
    exact ⟨e, he, (overlaps_iff_overlapPred e h).mp hov⟩
  · rintro ⟨e, he, hov⟩
    exact ⟨e, he, (overlaps_iff_overlapPred e h).mpr hov⟩

theorem foldl_filterStep_eq_spec :
    ∀ (l acc : List Highlight), l.foldl filterStep acc = l.foldl filterStepSpec acc := by
  intro l
  induction l with
  | nil => intro acc; rfl
  | cons x xs ih =>
      intro acc
      rw [List.foldl_cons, List.foldl_cons, filterStep_eq_filterStepSpec, ih]

theorem filterOverlaps_eq_spec (l : List Highlight) :
    filterOverlaps l = filterOverlapsSpec l :=
  foldl_filterStep_eq_spec l []

theorem mem_sortAsc {a : Highlight} {l : List Highlight} :
    a ∈ sortAsc l ↔ a ∈ l :=
  (List.perm_insertionSort startLE l).mem_iff

theorem sortAsc_pairwise (l : List Highlight) :
    (sortAsc l).Pairwise (fun a b => a.start ≤ b.start) :=
  List.sorted_insertionSort startLE l

theorem mem_resolveSpans {a : Highlight} {l : List Highlight}
    (h : a ∈ resolveSpans l) : a ∈ l :=
  mem_sortAsc.mp (mem_filterOverlaps h)

theorem resolveSpans_pairwise_stop_start (l : List Highlight) :
    (resolveSpans l).Pairwise (fun a b => a.stop ≤ b.start) :=
  filterOverlaps_pairwise (sortAsc_pairwise l)

theorem resolveSpans_disjoint {l : List Highlight} {A B : Highlight}
    (hA : A ∈ resolveSpans l) (hB : B ∈ resolveSpans l) (hne : A ≠ B) :
    A.stop ≤ B.start ∨ B.stop ≤ A.start := by
  have hp : (resolveSpans l).Pairwise
      (fun a b => a.stop ≤ b.start ∨ b.stop ≤ a.start) :=
    (resolveSpans_pairwise_stop_start l).imp (fun h => Or.inl h)
  have hsymm : Symmetric (fun a b : Highlight => a.stop ≤ b.start ∨ b.stop ≤ a.start) :=
    fun _ _ hab => hab.symm
  exact hp.forall hsymm hA hB hne

theorem resolveSpans_pairwise_start_lt {l : List Highlight}
    (hne : ∀ h ∈ l, h.start < h.stop) :
    (resolveSpans l).Pairwise (fun a b => a.start < b.start) := by
  refine (resolveSpans_pairwise_stop_start l).imp_of_mem ?_
  intro a b ha _ hab
  exact Nat.lt_of_lt_of_le (hne a (mem_resolveSpans ha)) hab

theorem sortDesc_eq_reverse {l : List Highlight}
    (hstrict : l.Pairwise (fun a b => a.start < b.start)) :
    sortDesc l = l.reverse := by
  have hperm : List.Perm (sortDesc l) l := List.perm_insertionSort startGE l
  have hperm2 : List.Perm (sortDesc l) l.reverse := hperm.trans (List.reverse_perm l).symm
  have hge : (sortDesc l).Pairwise startGE := List.sorted_insertionSort startGE l
  have hne_l : l.Pairwise (fun a b => a.start ≠ b.start) :=
    hstrict.imp (fun h => Nat.ne_of_lt h)
  have hne : (sortDesc l).Pairwise (fun a b => a.start ≠ b.start) :=
    (hperm.pairwise_iff (fun h => h.symm)).mpr hne_l
  have hgt : (sortDesc l).Pairwise startGT := by
    refine (hge.and hne).imp ?_
    intro a b hab
    exact Nat.lt_of_le_of_ne hab.1 (fun he => hab.2 he.symm)
  have hrev : (l.reverse).Pairwise startGT := by
    rw [List.pairwise_reverse]
    exact hstrict
  exact List.eq_of_perm_of_sorted hperm2 hgt hrev

theorem foldr_spliceOne (B : List Char) :
    ∀ (l : List Highlight) (q : Nat),
      l.Pairwise (fun a b => a.stop ≤ b.start) →
      (∀ h ∈ l, h.start ≤ h.stop ∧ h.stop ≤ B.length) →
      (∀ h ∈ l, q ≤ h.start) → q ≤ B.length →
      l.foldr (fun h acc => spliceOne acc h) B = B.take q ++ renderAsc B q l := by
  intro l
  induction l with
  | nil =>
      intro q _ _ _ _
      exact (List.take_append_drop q B).symm
  | cons h rest ih =>
      intro q hpair hbounds hq hqB
      rcases List.pairwise_cons.mp hpair with ⟨hstop_rest, hrest_pair⟩
      rcases hbounds h (List.mem_cons_self h rest) with ⟨hse, hsl⟩
      have hinner : rest.foldr (fun x acc => spliceOne acc x) B =
          B.take h.stop ++ renderAsc B h.stop rest :=
        ih h.stop hrest_pair
          (fun x hx => hbounds x (List.mem_cons_of_mem h hx)) hstop_rest hsl
      have hlen : (B.take h.stop).length = h.stop := by
        rw [List.length_take]
        omega
      rw [List.foldr_cons, hinner]
      unfold spliceOne
      have htake : (B.take h.stop ++ renderAsc B h.stop rest).take h.start =
          B.take h.start := by
        rw [List.take_append_of_le_length (by omega), List.take_take]
        congr 1
        omega
      have hdrop : (B.take h.stop ++ renderAsc B h.stop rest).drop h.stop =
          renderAsc B h.stop rest := by
        have hdl := List.drop_left (B.take h.stop) (renderAsc B h.stop rest)
        rwa [hlen] at hdl
      rw [htake, hdrop]
      show B.take h.start ++ wrapHighlight h ++ renderAsc B h.stop rest =
        B.take q ++ renderAsc B q (h :: rest)
      have hq_h : q ≤ h.start := hq h (List.mem_cons_self h rest)
      have hfront : B.take q ++ (B.drop q).take (h.start - q) = B.take h.start := by
        rw [← List.take_add]
        congr 1
        omega
      calc B.take h.start ++ wrapHighlight h ++ renderAsc B h.stop rest
          = (B.take q ++ (B.drop q).take (h.start - q)) ++ wrapHighlight h ++
              renderAsc B h.stop rest := by rw [hfront]
        _ = B.take q ++ ((B.drop q).take (h.start - q) ++ wrapHighlight h ++
              renderAsc B h.stop rest) := by simp [List.append_assoc]
        _ = B.take q ++ renderAsc B q (h :: rest) := rfl

theorem spliceAll_eq_renderAsc {text : List Char} {spans : List Highlight}
    (hb : ∀ h ∈ spans, h.start < h.stop ∧ h.stop ≤ text.length) :
    spliceAll text spans = renderAsc (escapeHtml text) 0 (resolveSpans spans) := by
  have hbF : ∀ h ∈ resolveSpans spans, h.start < h.stop ∧ h.stop ≤ text.length :=
    fun h hh => hb h (mem_resolveSpans hh)
  have hstrict : (resolveSpans spans).Pairwise (fun a b => a.start < b.start) :=
    resolveSpans_pairwise_start_lt (fun h hh => (hb h hh).1)
  unfold spliceAll
  rw [show sortDesc (resolveSpans spans) = (resolveSpans spans).reverse from
    sortDesc_eq_reverse hstrict]
  rw [List.foldl_reverse]
  have hmain := foldr_spliceOne (escapeHtml text) (resolveSpans spans) 0
    (resolveSpans_pairwise_stop_start spans)
    (fun h hh => ⟨Nat.le_of_lt (hbF h hh).1,
      Nat.le_trans (hbF h hh).2 (length_le_escapeHtml text)⟩)
    (fun h _ => Nat.zero_le h.start) (Nat.zero_le _)
  rw [hmain]
  simp

theorem renderAsc_eq_renderSpec {B : List Char}
    (hclean : ∀ c ∈ B, escChar c = [c]) :
    ∀ (l : List Highlight) (q : Nat),
      (∀ h ∈ l, h.text = (B.drop h.start).take (h.stop - h.start)) →
      renderAsc B q l = renderSpec B q l := by
  intro l
  induction l with
  | nil =>
      intro q _
      unfold renderAsc renderSpec
      rw [escapeHtml_id (fun c hc => hclean c (List.mem_of_mem_drop hc))]
  | cons h rest ih =>
      intro q htext
      unfold renderAsc renderSpec wrapHighlight
      rw [escapeHtml_id (fun c hc =>
        hclean c (List.mem_of_mem_drop (List.mem_of_mem_take hc)))]
      rw [htext h (List.mem_cons_self h rest)]
      rw [ih h.stop (fun x hx => htext x (List.mem_cons_of_mem h hx))]
      simp [List.append_assoc]

theorem renderAsc_occurs {h : Highlight} :
    ∀ (l : List Highlight) (B : List Char) (q : Nat), h ∈ l →
      ∃ s t, renderAsc B q l = s ++ wrapHighlight h ++ t := by
  intro l
  induction l with
  | nil => intro B q hmem; cases hmem
  | cons x rest ih =>
      intro B q hmem
      rcases List.mem_cons.mp hmem with heq | hrest
      · subst heq
        refine ⟨(B.drop q).take (h.start - q), renderAsc B h.stop rest, ?_⟩
        simp only [renderAsc]
      · rcases ih B x.stop hrest with ⟨s, t, hst⟩
        refine ⟨(B.drop q).take (x.start - q) ++ wrapHighlight x ++ s, t, ?_⟩
        simp only [renderAsc]
        rw [hst]
        simp [List.append_assoc]

theorem totalCount_le_length (l : List Highlight) : totalCount l ≤ l.length := by
  unfold totalCount
  calc ((l.map fun h => lowerStr h.text).dedup).length
      ≤ (l.map fun h => lowerStr h.text).length := (List.dedup_sublist _).length_le
    _ = l.length := List.length_map _ _

theorem absolute_word_mem_absTokenSpans {tok : Token}
    (h : lowerStr tok.surface ∈ absoluteWords) :
    RawSpan.mk tok.surface tok.offset "absolute_word" ∈ absTokenSpans tok := by
  simp only [absTokenSpans]
  simp [h, List.mem_append]

theorem negation_mem_invTokenSpans {tok : Token}
    (h : lowerStr tok.lemmaForm = "never".toList) :
    RawSpan.mk tok.surface tok.offset "negation" ∈ invTokenSpans tok := by
  simp only [invTokenSpans]
  simp [h, List.mem_append]

/-- C1: the greedy overlap filter keeps a span exactly when no already-kept
span satisfies `kept.start <= candidate.start < kept.end` or
`kept.start < candidate.end <= kept.end` (the code's boolean test coincides
with the spec's wording for every input list), and on the spans
`[{0,5}, {2,8}, {10,12}]` the kept set is `[{0,5}, {10,12}]`. -/
theorem claim1_filter_matches_spec :
    (∀ l : List Highlight, filterOverlaps l = filterOverlapsSpec l) ∧
      filterOverlaps [exSpanA, exSpanB, exSpanC] = [exSpanA, exSpanC] :=
  ⟨filterOverlaps_eq_spec, by decide⟩

/-- C2: after sorting by ascending start and running the overlap filter, the
kept spans are pairwise non-overlapping: any two distinct kept spans A, B
satisfy `A.end <= B.start` or `B.end <= A.start`. -/
theorem claim2_kept_disjoint (l : List Highlight) (A B : Highlight)
    (hA : A ∈ resolveSpans l) (hB : B ∈ resolveSpans l) (hne : A ≠ B) :
    A.stop ≤ B.start ∨ B.stop ≤ A.start :=
  resolveSpans_disjoint hA hB hne

/-- Witness for C2 on the spec's worked example. -/
theorem claim2_witness :
    exSpanA ∈ resolveSpans [exSpanA, exSpanB, exSpanC] ∧
    exSpanC ∈ resolveSpans [exSpanA, exSpanB, exSpanC] ∧
    exSpanA ≠ exSpanC ∧
    (exSpanA.stop ≤ exSpanC.start ∨ exSpanC.stop ≤ exSpanA.start) :=
  ⟨by decide, by decide, by decide,
    claim2_kept_disjoint [exSpanA, exSpanB, exSpanC] exSpanA exSpanC
      (by decide) (by decide) (by decide)⟩

/-- C3: for non-whitespace input, `total` is the number of distinct lowercase
texts among all originally-detected spans of all three detectors (before
overlap filtering), the three per-category counts are the raw per-detector
span counts, and consequently `total <= tension + absolutism + inversion`. -/
theorem claim3_counts (eng : RegexEngine) (st : NLPState) (text : List Char)
    (hws : ¬ text.all Char.isWhitespace = true) :
    (analyzeText eng st text).counts.total =
        ((allHighlights eng st text).map (fun h => lowerStr h.text)).dedup.length ∧
    (analyzeText eng st text).counts.tension = (rawTension eng text).length ∧
    (analyzeText eng st text).counts.absolutism = (rawAbs eng st text).length ∧
    (analyzeText eng st text).counts.inversion = (rawInv eng st text).length ∧
    (analyzeText eng st text).counts.total ≤
      (analyzeText eng st text).counts.tension +
        (analyzeText eng st text).counts.absolutism +
        (analyzeText eng st text).counts.inversion := by
  simp only [analyzeText, if_neg hws]
  refine ⟨rfl, trivial, trivial, trivial, ?_⟩
  have hle := totalCount_le_length (allHighlights eng st text)
  have hlen : (allHighlights eng st text).length =
      (rawTension eng text).length + (rawAbs eng st text).length +
        (rawInv eng st text).length := by
    simp [allHighlights]
    omega
  omega

/-- Witness for C3 at a concrete non-whitespace input. -/
theorem claim3_witness :
    (analyzeText engNone stUnloaded ("hi".toList)).counts.total ≤
      (analyzeText engNone stUnloaded ("hi".toList)).counts.tension +
        (analyzeText engNone stUnloaded ("hi".toList)).counts.absolutism +
        (analyzeText engNone stUnloaded ("hi".toList)).counts.inversion :=
  (claim3_counts engNone stUnloaded ("hi".toList) (by decide)).2.2.2.2

/-- C4 counterexample: all side conditions of the claim hold (the detected
span's text contains no `&`, `<` or `>`, the span is in bounds and matches
its substring of the original text), yet splicing by original offsets into
the up-front-escaped string is not the correct annotated rendering, because
an `&` before the span shifts every later offset of the escaped string. -/
theorem claim4_counterexample :
    (∀ c ∈ cexSpan.text, c ≠ '&' ∧ c ≠ '<' ∧ c ≠ '>') ∧
    (∀ h ∈ [cexSpan], h.start < h.stop ∧ h.stop ≤ cexText.length) ∧
    (∀ h ∈ [cexSpan], h.text = (cexText.drop h.start).take (h.stop - h.start)) ∧
    spliceAll cexText [cexSpan] ≠ renderSpec cexText 0 (resolveSpans [cexSpan]) :=
  ⟨by decide, by decide, by decide, by decide⟩

/-- C4 amended: if the whole input text contains no `&`, `<` or `>` (not just
the span texts), then escaping the input once up front and splicing each kept
span's wrapper by its original-text offsets produces the correct annotated
rendering: every kept span is wrapped around exactly its matched substring and
every gap is the escaped original text. -/
theorem claim4_amended (text : List Char) (spans : List Highlight)
    (hclean : ∀ c ∈ text, c ≠ '&' ∧ c ≠ '<' ∧ c ≠ '>')
    (hb : ∀ h ∈ spans, h.start < h.stop ∧ h.stop ≤ text.length)
    (ht : ∀ h ∈ spans, h.text = (text.drop h.start).take (h.stop - h.start)) :
    spliceAll text spans = renderSpec text 0 (resolveSpans spans) := by
  have hesc : escapeHtml text = text :=
    escapeHtml_id (fun c hc =>
      escChar_eq_self (hclean c hc).1 (hclean c hc).2.1 (hclean c hc).2.2)
  rw [spliceAll_eq_renderAsc hb, hesc]
  exact renderAsc_eq_renderSpec
    (fun c hc => escChar_eq_self (hclean c hc).1 (hclean c hc).2.1 (hclean c hc).2.2)
    (resolveSpans spans) 0
    (fun h hh => ht h (mem_resolveSpans hh))

/-- Witness for the amended C4 on a clean input. -/
theorem claim4_witness :
    (∀ c ∈ cleanText, c ≠ '&' ∧ c ≠ '<' ∧ c ≠ '>') ∧
    spliceAll cleanText [cleanSpan] = renderSpec cleanText 0 (resolveSpans [cleanSpan]) :=
  ⟨by decide, claim4_amended cleanText [cleanSpan] (by decide) (by decide) (by decide)⟩

/-- C5: `analyzeText` is a total function of its inputs (so every call
terminates with a well-formed `AnalysisResult`), and the `catch` wrapper maps
any failure of the body to the placeholder result with all four counts zero,
never re-raising to the caller. -/
theorem claim5_total_and_fail_soft (eng : RegexEngine) (st : NLPState)
    (text : List Char) (err : String) :
    analyzeTextCaught eng st text none = analyzeText eng st text ∧
    analyzeTextCaught eng st text (some err) = ⟨failMarkup, ⟨0, 0, 0, 0⟩⟩ ∧
    (analyzeTextCaught eng st text (some err)).counts = ⟨0, 0, 0, 0⟩ :=
  ⟨rfl, rfl, rfl⟩

/-- C6: with the tokenizing capability unavailable (`nlp` is null), both NLP
detectors return the empty list, the highlight list is exactly the tension
highlights, the absolutism and inversion counts are zero, and the tension
count is still the raw tension-detector match count. -/
theorem claim6_degraded (eng : RegexEngine) (st : NLPState) (text : List Char)
    (hun : st.nlp = none) (hws : ¬ text.all Char.isWhitespace = true) :
    detectAbsolutismsNLP eng st.nlp text = [] ∧
    detectInversionsNLP eng st.nlp text = [] ∧
    allHighlights eng st text = rawTension eng text ∧
    (analyzeText eng st text).counts.absolutism = 0 ∧
    (analyzeText eng st text).counts.inversion = 0 ∧
    (analyzeText eng st text).counts.tension = (rawTension eng text).length := by
  have hact : nlpActive st = false := by simp [nlpActive, hun]
  have habs : rawAbs eng st text = [] := by simp [rawAbs, hact]
  have hinv : rawInv eng st text = [] := by simp [rawInv, hact]
  refine ⟨by rw [hun]; rfl, by rw [hun]; rfl, ?_, ?_, ?_, ?_⟩
  · simp [allHighlights, habs, hinv]
  · simp only [analyzeText, if_neg hws]
    simp [habs]
  · simp only [analyzeText, if_neg hws]
    simp [hinv]
  · simp only [analyzeText, if_neg hws]

/-- Witness for C6 on a concrete unloaded state. -/
theorem claim6_witness :
    (analyzeText engNone stUnloaded ("hi".toList)).counts.absolutism = 0 :=
  (claim6_degraded engNone stUnloaded ("hi".toList) rfl (by decide)).2.2.2.1

/-- C7: `analyzeText` is a pure function of the pattern tables, the NLP
readiness state and the input text: equal inputs give identical results. -/
theorem claim7_deterministic (eng eng' : RegexEngine) (st st' : NLPState)
    (text text' : List Char)
    (he : eng = eng') (hs : st = st') (ht : text = text') :
    analyzeText eng st text = analyzeText eng' st' text' := by
  subst he
  subst hs
  subst ht
  rfl

/-- Witness for C7 at a concrete input. -/
theorem claim7_witness :
    analyzeText engNone stUnloaded ("hi".toList) =
      analyzeText engNone stUnloaded ("hi".toList) :=
  claim7_deterministic engNone engNone stUnloaded stUnloaded
    ("hi".toList) ("hi".toList) rfl rfl rfl

/-- C8: for the input `5 > 3 & true` with no detected spans, the produced
markup contains the entities `&gt;` and `&amp;` and no raw `<`, `>` or `&`
(every remaining `&` opens one of the three entities of `escapeHtml`). -/
theorem claim8_roundtrip_escaping :
    containsSub ("&gt;".toList) (analyzeText engNone stUnloaded escExampleText).markup = true ∧
    containsSub ("&amp;".toList) (analyzeText engNone stUnloaded escExampleText).markup = true ∧
    noRawSpecials (analyzeText engNone stUnloaded escExampleText).markup = true :=
  ⟨by decide, by decide, by decide⟩

/-- C9: a kept span's matched text is spliced verbatim inside its wrapper and
is never HTML-escaped: the output of the splice stage contains
`<span class="...">` ++ the raw span text ++ `</span>` as a contiguous
segment, so any `&`, `<` or `>` of the span text appears unescaped in the
markup. -/
theorem claim9_span_text_verbatim (text : List Char) (spans : List Highlight)
    (h : Highlight) (c : Char)
    (hb : ∀ x ∈ spans, x.start < x.stop ∧ x.stop ≤ text.length)
    (hmem : h ∈ resolveSpans spans) (hc : c ∈ h.text)
    (_hspecial : c = '&' ∨ c = '<' ∨ c = '>') :
    (∃ s t, spliceAll text spans =
        s ++ (spanOpen h.cls ++ h.text ++ spanClose) ++ t) ∧
    c ∈ spliceAll text spans := by
  rw [spliceAll_eq_renderAsc hb]
  rcases renderAsc_occurs (resolveSpans spans) (escapeHtml text) 0 hmem with ⟨s, t, hst⟩
  constructor
  · exact ⟨s, t, by rw [hst]; rfl⟩
  · rw [hst]
    simp [wrapHighlight, spanOpen, hc]

/-- Witness for C9: a kept span whose text is a raw ampersand. -/
theorem claim9_witness :
    ampSpan ∈ resolveSpans [ampSpan] ∧
    ((∃ s t, spliceAll ampText [ampSpan] =
        s ++ (spanOpen ampSpan.cls ++ ampSpan.text ++ spanClose) ++ t) ∧
      '&' ∈ spliceAll ampText [ampSpan]) :=
  ⟨by decide,
    claim9_span_text_verbatim ampText [ampSpan] ampSpan '&'
      (by decide) (by decide) (by decide) (by decide)⟩

/-- C10: a token whose lowercase surface (and lemma, as the tokenizer
produces for `never`) is `never` yields an `absolute_word` absolutism span
and a `negation` inversion span with identical start and end offsets; each
duplicate contributes to its own per-category count, and at most one of the
two duplicate highlights can survive the overlap filter. -/
theorem claim10_duplicate_spans (eng : RegexEngine) (n : NLP) (st : NLPState)
    (text : List Char) (doc : NLPDoc) (tok : Token)
    (hdoc : n.readDoc text = Except.ok doc)
    (htok : tok ∈ doc.tokens)
    (hsurf : lowerStr tok.surface = "never".toList)
    (hlem : lowerStr tok.lemmaForm = "never".toList)
    (hst : st = ⟨some n, true⟩)
    (hws : ¬ text.all Char.isWhitespace = true) :
    RawSpan.mk tok.surface tok.offset "absolute_word" ∈
        detectAbsolutismsNLP eng (some n) text ∧
    RawSpan.mk tok.surface tok.offset "negation" ∈
        detectInversionsNLP eng (some n) text ∧
    (toHighlight "absolutism" ("highlight-absolutism".toList)
        (RawSpan.mk tok.surface tok.offset "absolute_word")).start =
      (toHighlight "inversion" ("highlight-inversion".toList)
        (RawSpan.mk tok.surface tok.offset "negation")).start ∧
    (toHighlight "absolutism" ("highlight-absolutism".toList)
        (RawSpan.mk tok.surface tok.offset "absolute_word")).stop =
      (toHighlight "inversion" ("highlight-inversion".toList)
        (RawSpan.mk tok.surface tok.offset "negation")).stop ∧
    1 ≤ (analyzeText eng st text).counts.absolutism ∧
    1 ≤ (analyzeText eng st text).counts.inversion ∧
    (∀ l : List Highlight,
      ¬(toHighlight "absolutism" ("highlight-absolutism".toList)
            (RawSpan.mk tok.surface tok.offset "absolute_word") ∈ resolveSpans l ∧
        toHighlight "inversion" ("highlight-inversion".toList)
            (RawSpan.mk tok.surface tok.offset "negation") ∈ resolveSpans l)) := by
  subst hst
  have hlen5 : tok.surface.length = 5 := by
    have hc := congrArg List.length hsurf
    simpa [lowerStr] using hc
  have hredA : detectAbsolutismsNLP eng (some n) text =
      doc.tokens.flatMap absTokenSpans ++ absPhraseSpans eng doc := by
    simp [detectAbsolutismsNLP, hdoc]
  have hredI : detectInversionsNLP eng (some n) text =
      doc.tokens.flatMap invTokenSpans ++ invPhraseSpans eng doc := by
    simp [detectInversionsNLP, hdoc]
  have hmemA : RawSpan.mk tok.surface tok.offset "absolute_word" ∈
      detectAbsolutismsNLP eng (some n) text := by
    rw [hredA]
    refine List.mem_append_left _ (List.mem_flatMap.mpr ⟨tok, htok, ?_⟩)
    exact absolute_word_mem_absTokenSpans (by rw [hsurf]; decide)
  have hmemI : RawSpan.mk tok.surface tok.offset "negation" ∈
      detectInversionsNLP eng (some n) text := by
    rw [hredI]
    refine List.mem_append_left _ (List.mem_flatMap.mpr ⟨tok, htok, ?_⟩)
    exact negation_mem_invTokenSpans hlem
  have hrawA : rawAbs eng ⟨some n, true⟩ text =
      (detectAbsolutismsNLP eng (some n) text).map
        (toHighlight "absolutism" ("highlight-absolutism".toList)) := by
    simp [rawAbs, nlpActive]
  have hrawI : rawInv eng ⟨some n, true⟩ text =
      (detectInversionsNLP eng (some n) text).map
        (toHighlight "inversion" ("highlight-inversion".toList)) := by
    simp [rawInv, nlpActive]
  have hcountA : 1 ≤ (analyzeText eng ⟨some n, true⟩ text).counts.absolutism := by
    simp only [analyzeText, if_neg hws]
    rw [hrawA, List.length_map]
    exact List.length_pos.mpr (List.ne_nil_of_mem hmemA)
  have hcountI : 1 ≤ (analyzeText eng ⟨some n, true⟩ text).counts.inversion := by
    simp only [analyzeText, if_neg hws]
    rw [hrawI, List.length_map]
    exact List.length_pos.mpr (List.ne_nil_of_mem hmemI)
  refine ⟨hmemA, hmemI, rfl, rfl, hcountA, hcountI, ?_⟩
  rintro l ⟨h1, h2⟩
  have hne : toHighlight "absolutism" ("highlight-absolutism".toList)
      (RawSpan.mk tok.surface tok.offset "absolute_word") ≠
      toHighlight "inversion" ("highlight-inversion".toList)
        (RawSpan.mk tok.surface tok.offset "negation") := by
    intro he
    have htype := congrArg Highlight.type he
    simp [toHighlight] at htype
  have hdisj := resolveSpans_disjoint h1 h2 hne
  simp only [toHighlight] at hdisj
  omega

/-- Witness for C10: the token `never` in a concrete document. -/
theorem claim10_witness :
    RawSpan.mk ("never".toList) 3 "absolute_word" ∈
      detectAbsolutismsNLP engNone (some nlpNever) textNever :=
  (claim10_duplicate_spans engNone nlpNever stNever textNever docNever tokNever
    rfl (by decide) (by decide) (by decide) rfl (by decide)).1
